import Mathlib

/-!
Verification of the mina-signer Schnorr signature core
(`src/mina-signer/signature.ts`): a shallow embedding of `sign`, `verify`,
`deriveNonce`, `hashMessage` and the base58 `Signature` codec over the Pallas
curve, together with proofs of the specified properties.

The signature core delegates to external collaborators (field/scalar/curve
arithmetic, the blake2b byte hash, the Poseidon field hash, the packing of
hash inputs to field elements, and the base58-check codec).  Those live
outside the verified slice, so they are modelled as parameters of an
environment record `Env`, constrained by the contract `EnvSpec` that records
exactly the interface facts the specification attributes to them (group laws
for multiples of the generator, coordinate behaviour of point negation,
failure of affine conversion exactly at infinity, the 32-byte blake2b output
length, and the base58-check round trip).
-/

namespace MinaSignature

/-- Order of the Pallas base field: coordinates of curve points. -/
def pPallas : ℕ := 28948022309329048855892746252171976963363056481941560715954676764349967630337

/-- Order of the Pallas scalar field: the order of the curve group. -/
def qPallas : ℕ := 28948022309329048855892746252171976963363056481941647379679742748393362948097

instance : NeZero pPallas := ⟨by decide⟩

instance : NeZero qPallas := ⟨by decide⟩

/-- The Pallas base field, `Field` in the source (`field-bigint`). -/
abbrev Field := ZMod pPallas

/-- The Pallas scalar field, `Scalar` in the source (`curve-bigint`). -/
abbrev Scalar := ZMod qPallas

/-- Network ids are strings at runtime; the source compares them with the
literal string for mainnet and treats every other value as testnet. -/
abbrev NetworkId := String

/-- The mainnet network id string. -/
def mainnetTag : NetworkId := "mainnet"

/-- The testnet network id string. -/
def testnetTag : NetworkId := "testnet"

/-- Source constant `networkIdMainnet = 0x01n`. -/
def networkIdMainnet : Field := 1

/-- Source constant `networkIdTestnet = 0x00n`. -/
def networkIdTestnet : Field := 0

/-- Modelled from the spec: `HashInput` (from `poseidon-bigint`, outside the
verified slice) is an ordered list of base field elements together with an
ordered list of (value, bit-width) pairs packed at sub-field granularity. -/
structure HashInput where
  fields : List Field
  packed : List (Field × ℕ)
deriving DecidableEq

/-- Modelled from the spec: `HashInput.append` concatenates both component
lists, left operand first. -/
def HashInput.append (i1 i2 : HashInput) : HashInput :=
  ⟨i1.fields ++ i2.fields, i1.packed ++ i2.packed⟩

/-- A signature is a pair of a base field element `r` (an x-coordinate) and a
scalar `s`. -/
structure Signature where
  r : Field
  s : Scalar
deriving DecidableEq

instance {ε α : Type} [DecidableEq ε] [DecidableEq α] : DecidableEq (Except ε α)
  | .error e, .error e' => by
      cases h : decide (e = e') with
      | true => exact .isTrue (by rw [of_decide_eq_true h])
      | false => exact .isFalse (by intro hc; cases hc; simp at h)
  | .error _, .ok _ => .isFalse (by intro hc; cases hc)
  | .ok _, .error _ => .isFalse (by intro hc; cases hc)
  | .ok a, .ok a' => by
      cases h : decide (a = a') with
      | true => exact .isTrue (by rw [of_decide_eq_true h])
      | false => exact .isFalse (by intro hc; cases hc; simp at h)

/-- Little-endian value of a bit list (bit 0 first). -/
def natOfBitsLE (bs : List Bool) : ℕ :=
  bs.foldr (fun b acc => (if b then 1 else 0) + 2 * acc) 0

/-- Little-endian value of a byte list (least significant byte first). -/
def natOfBytesLE : List ℕ → ℕ
  | [] => 0
  | b :: bs => b + 256 * natOfBytesLE bs

/-- Little-endian byte representation of a natural number, `k` bytes long. -/
def bytesOfNatLE : ℕ → ℕ → List ℕ
  | 0, _ => []
  | k + 1, v => (v % 256) :: bytesOfNatLE k (v / 256)

/-- Modelled from the spec: `Field.toBits` (from `field-bigint`, outside the
verified slice) is the fixed-width little-endian bit decomposition of the
canonical representative, 255 bits for the Pallas base field. -/
def Field.toBits (x : Field) : List Bool :=
  (List.range 255).map (fun i => x.val.testBit i)

/-- Modelled from the spec: `Field.fromBits` composes a little-endian bit
list back into a base field element. -/
def Field.fromBits (bs : List Bool) : Field :=
  (natOfBitsLE bs : Field)

/-- Modelled from the spec: `Scalar.toBits`, the 255-bit little-endian bit
decomposition of a scalar. -/
def Scalar.toBits (x : Scalar) : List Bool :=
  (List.range 255).map (fun i => x.val.testBit i)

/-- Modelled from the spec: `Scalar.fromBytes` interprets a byte list as an
unsigned little-endian integer reduced modulo the scalar field order. -/
def Scalar.fromBytes (bs : List ℕ) : Scalar :=
  (natOfBytesLE bs : Scalar)

/-- Source `Field.isEven`: parity of the canonical representative. -/
def Field.isEven (x : Field) : Bool :=
  x.val % 2 == 0

/-- Source `Field.equal` (used via strict equality in `verify`). -/
def Field.equal (x y : Field) : Bool :=
  x == y

/-- Value of one byte of a bit stream: the first (up to) 8 bits,
least-significant first. -/
def byteOfBits (bs : List Bool) : ℕ :=
  natOfBitsLE (bs.take 8)

/-- Fuelled worker for `bitsToBytes`. -/
def bitsToBytesAux : ℕ → List Bool → List ℕ
  | 0, _ => []
  | _, [] => []
  | fuel + 1, b :: bs => byteOfBits (b :: bs) :: bitsToBytesAux fuel ((b :: bs).drop 8)

/-- Modelled from the spec: `bitsToBytes` (from `binable`, outside the
verified slice) regroups a bit stream into bytes, 8 bits per byte,
least-significant bit first within each byte. -/
def bitsToBytes (bs : List Bool) : List ℕ :=
  bitsToBytesAux bs.length bs

/-- The mutation `bytes[bytes.length - 1] &= 0x3f` from `deriveNonce`:
mask the last byte with `0x3f`. -/
def maskLastByte (bs : List ℕ) : List ℕ :=
  bs.set (bs.length - 1) ((bs.getD (bs.length - 1) 0) &&& 0x3f)

/-- The same masking at the fixed byte index 31, as the specification words
it ("byte index 31"). -/
def maskByte31 (bs : List ℕ) : List ℕ :=
  bs.set 31 ((bs.getD 31 0) &&& 0x3f)

/-- Reinterpretation of a base field hash output as a scalar, taking the
numeric value unchanged (the `Scalar` return of `hashMessage`). -/
def fieldToScalar (x : Field) : Scalar :=
  (x.val : Scalar)

/--
Environment of external collaborators consumed by the signature core,
one field per interface operation of the specification:

* the curve interface (`Group` / `Pallas` in the source): a point type `P`
  covering both the affine and the projective representation, with the point
  at infinity `inf`, the distinguished Mina generator `genG`, point addition,
  subtraction and negation, scalar multiplication `scale`, affine coordinate
  accessors `xc`/`yc`, and the affine conversion `fromProjective` that fails
  (returns `none`, modelling the thrown error) exactly at infinity;
* the byte hash `blake2b` with 32-byte output;
* the message encoder `packToFields` and the domain-separated field hash
  `hashWithPrefix` (modelled as the field `poseidonHash`) with its two fixed domain strings;
* the base58-check codec used by the `Signature` codec, together with the
  version number byte of the binary signature format.
-/
structure Env (P : Type) where
  inf : P
  genG : P
  add : P → P → P
  sub : P → P → P
  neg : P → P
  scale : P → Scalar → P
  xc : P → Field
  yc : P → Field
  fromProjective : P → Option (Field × Field)
  blake2b : List ℕ → List ℕ
  packToFields : HashInput → List Field
  poseidonHash : String → List Field → Field
  signatureMainnet : String
  signatureTestnet : String
  toBase58Check : List ℕ → String
  fromBase58Check : String → Except String (List ℕ)
  versionNumberSig : ℕ

/--
Contract of the external collaborators, as the specification states it at
the interface boundary: group laws for scalar multiples of the generator
(the generator generates a cyclic group of order exactly the scalar field
order), subtraction as addition of the negation, negation fixing the
x-coordinate and negating the y-coordinate, affine conversion failing
exactly at the point at infinity, blake2b producing 32 bytes, and the
base58-check codec round-tripping on byte lists.
-/
structure EnvSpec {P : Type} (E : Env P) : Prop where
  scale_add : ∀ a b : Scalar,
    E.scale E.genG (a + b) = E.add (E.scale E.genG a) (E.scale E.genG b)
  scale_scale : ∀ a b : Scalar,
    E.scale (E.scale E.genG a) b = E.scale E.genG (a * b)
  scale_neg : ∀ a : Scalar, E.scale E.genG (-a) = E.neg (E.scale E.genG a)
  scale_eq_inf : ∀ a : Scalar, E.scale E.genG a = E.inf ↔ a = 0
  sub_eq : ∀ A B : P, E.sub A B = E.add A (E.neg B)
  xc_neg : ∀ Q : P, E.xc (E.neg Q) = E.xc Q
  yc_neg : ∀ Q : P, E.yc (E.neg Q) = - E.yc Q
  fromProjective_inf : E.fromProjective E.inf = none
  fromProjective_ne : ∀ Q : P, Q ≠ E.inf → E.fromProjective Q = some (E.xc Q, E.yc Q)
  blake_len : ∀ bs : List ℕ, (E.blake2b bs).length = 32
  b58_roundtrip : ∀ bs : List ℕ, (∀ b ∈ bs, b < 256) →
    E.fromBase58Check (E.toBase58Check bs) = Except.ok bs
  versionNumber_lt : E.versionNumberSig < 256

/-- The network byte selected inside `deriveNonce`:
`networkId === 'mainnet' ? networkIdMainnet : networkIdTestnet`. -/
def networkCode (networkId : NetworkId) : Field :=
  if networkId = mainnetTag then networkIdMainnet else networkIdTestnet

/-- The domain prefix selected inside `hashMessage`:
`networkId === 'mainnet' ? prefixes.signatureMainnet : prefixes.signatureTestnet`. -/
def signatureDomain {P : Type} (E : Env P) (networkId : NetworkId) : String :=
  if networkId = mainnetTag then E.signatureMainnet else E.signatureTestnet

/--
`deriveNonce` of the source: append to the message the field list
`[x, y, d]` (public key coordinates and the private key recomposed as a base
field element) and the packed pair `(networkCode, 8)`, pack to fields,
decompose to bits, regroup to bytes, hash with blake2b (32-byte output),
mask the last byte with `0x3f`, and read the bytes as a scalar.
-/
def deriveNonce {P : Type} (E : Env P) (message : HashInput) (publicKey : P)
    (privateKey : Scalar) (networkId : NetworkId) : Scalar :=
  let x := E.xc publicKey
  let y := E.yc publicKey
  let d := Field.fromBits (Scalar.toBits privateKey)
  let id := networkCode networkId
  let input := HashInput.append message ⟨[x, y, d], [(id, 8)]⟩
  let packedInput := E.packToFields input
  let inputBits := (packedInput.map Field.toBits).flatten
  let inputBytes := bitsToBytes inputBits
  let bytes := E.blake2b inputBytes
  Scalar.fromBytes (maskLastByte bytes)

/--
`hashMessage` of the source: append the field list `[x, y, r]` to the
message, pack to fields, hash with the network-selected domain prefix, and
reinterpret the base field output as a scalar with unchanged value.
-/
def hashMessage {P : Type} (E : Env P) (message : HashInput) (publicKey : P)
    (r : Field) (networkId : NetworkId) : Scalar :=
  let x := E.xc publicKey
  let y := E.yc publicKey
  let input := HashInput.append message ⟨[x, y, r], []⟩
  fieldToScalar (E.poseidonHash (signatureDomain E networkId) (E.packToFields input))

/-- The error message of the single `throw` in `sign`. -/
def signNonceZeroMsg : String := "sign: derived nonce is 0"

/--
`sign` of the source.  The thrown error for a zero derived nonce is
modelled as the `Except.error` result; every other path returns the
signature.  The public key is the generator scaled by the private key; the
commitment is the generator scaled by the nonce; the nonce is conditionally
negated so that the commitment's y-coordinate is even; `s = k + e * sk`.
-/
def sign {P : Type} (E : Env P) (message : HashInput) (privateKey : Scalar)
    (networkId : NetworkId) : Except String Signature :=
  let publicKey := E.scale E.genG privateKey
  let kPrime := deriveNonce E message publicKey privateKey networkId
  if kPrime = 0 then Except.error signNonceZeroMsg
  else
    let rx := E.xc (E.scale E.genG kPrime)
    let ry := E.yc (E.scale E.genG kPrime)
    let k := if Field.isEven ry then kPrime else -kPrime
    let e := hashMessage E message publicKey rx networkId
    Except.ok ⟨rx, k + e * privateKey⟩

/-- The point `R = s·G − e·pk` reconstructed inside `verify` (projective
arithmetic in the source). -/
def verifyCommitment {P : Type} (E : Env P) (signature : Signature)
    (message : HashInput) (publicKey : P) (networkId : NetworkId) : P :=
  let e := hashMessage E message publicKey signature.r networkId
  E.sub (E.scale E.genG signature.s) (E.scale publicKey e)

/--
`verify` of the source, with the public key already decompressed to a curve
point (the decompression `PublicKey.toGroup` is outside the verified slice).
The `try`/`catch` around `Group.fromProjective` is modelled by matching on
the `Option`: the point at infinity yields `false`, an affine point `(rx, ry)`
is accepted exactly when `ry` is even and `rx` equals the signature's `r`.
-/
def verify {P : Type} (E : Env P) (signature : Signature) (message : HashInput)
    (publicKey : P) (networkId : NetworkId) : Bool :=
  match E.fromProjective (verifyCommitment E signature message publicKey networkId) with
  | none => false
  | some (rx, ry) => Field.isEven ry && Field.equal rx signature.r

/-- Source `signFieldElement`: `sign` with a single-field message. -/
def signFieldElement {P : Type} (E : Env P) (message : Field)
    (privateKey : Scalar) (networkId : NetworkId) : Except String Signature :=
  sign E ⟨[message], []⟩ privateKey networkId

/-- Source `verifyFieldElement`: `verify` with a single-field message. -/
def verifyFieldElement {P : Type} (E : Env P) (signature : Signature)
    (message : Field) (publicKey : P) (networkId : NetworkId) : Bool :=
  verify E signature ⟨[message], []⟩ publicKey networkId

/-- Modelled from the spec: the binary signature format
(`withVersionNumber(tuple([Field, Scalar]), versionNumbers.signature)` with
the codecs from `binable`/`field-bigint`, outside the verified slice): one
version number byte, then 32 little-endian bytes for `r`, then 32
little-endian bytes for `s`. -/
def sigToBytes {P : Type} (E : Env P) (signature : Signature) : List ℕ :=
  E.versionNumberSig :: (bytesOfNatLE 32 signature.r.val ++ bytesOfNatLE 32 signature.s.val)

/-- The decoding error message for a version number mismatch. -/
def sigVersionMsg : String := "signature: wrong version byte"

/-- The decoding error message for a wrong payload length. -/
def sigLengthMsg : String := "signature: wrong length"

/-- Modelled from the spec: decoding of the binary signature format; fails
on a wrong version number byte or a wrong length, per the codec contract of
the specification. -/
def sigOfBytes {P : Type} (E : Env P) (bytes : List ℕ) : Except String Signature :=
  match bytes with
  | [] => Except.error sigLengthMsg
  | v :: rest =>
    if v = E.versionNumberSig then
      if rest.length = 64 then
        Except.ok ⟨(natOfBytesLE (rest.take 32) : Field), (natOfBytesLE (rest.drop 32) : Scalar)⟩
      else Except.error sigLengthMsg
    else Except.error sigVersionMsg

/-- Source `Signature.toBase58`: base58-check encoding of the binary form. -/
def Signature.toBase58 {P : Type} (E : Env P) (signature : Signature) : String :=
  E.toBase58Check (sigToBytes E signature)

/-- Source `Signature.fromBase58`: base58-check decoding followed by binary
decoding; every decoding failure is propagated as an error. -/
def Signature.fromBase58 {P : Type} (E : Env P) (text : String) : Except String Signature :=
  match E.fromBase58Check text with
  | Except.error e => Except.error e
  | Except.ok bytes => sigOfBytes E bytes

/-!
Specification-side definitions: for the refinement claims about
`deriveNonce` and `hashMessage`, a second definition written from the
specification's wording, to be compared with the one embedded from the
source, and the signature shape the canonicalization claim describes.
-/

/-- The nonce derivation exactly as the specification words it: network code
`0x01` for mainnet and `0x00` otherwise, appended field list `[x, y, d]` and
single packed pair `(code, 8)`, packing, bit decomposition, regrouping to
bytes, a 32-byte byte hash, masking byte index 31 with `0x3f`, and reading
the 32 bytes as an unsigned integer modulo the scalar field order. -/
def deriveNonceSpec {P : Type} (E : Env P) (message : HashInput) (publicKey : P)
    (privateKey : Scalar) (networkId : NetworkId) : Scalar :=
  let code : Field := if networkId = mainnetTag then 1 else 0
  let d := Field.fromBits (Scalar.toBits privateKey)
  let input := HashInput.append message ⟨[E.xc publicKey, E.yc publicKey, d], [(code, 8)]⟩
  let bytes := E.blake2b (bitsToBytes ((E.packToFields input).map Field.toBits).flatten)
  Scalar.fromBytes (maskByte31 bytes)

/-- The challenge hash exactly as the specification words it: appended field
list `[x, y, r]`, packing, the domain-separated hash with the mainnet prefix
for mainnet and the testnet prefix otherwise, and reinterpretation of the
base field output as a scalar. -/
def hashMessageSpec {P : Type} (E : Env P) (message : HashInput) (publicKey : P)
    (r : Field) (networkId : NetworkId) : Scalar :=
  let input := HashInput.append message ⟨[E.xc publicKey, E.yc publicKey, r], []⟩
  let dom := if networkId = mainnetTag then E.signatureMainnet else E.signatureTestnet
  fieldToScalar (E.poseidonHash dom (E.packToFields input))

/-- The signature the canonicalization claim describes: `r` is the
x-coordinate of `G·k'`; `s = k + e·sk` with `k = k'` when the y-coordinate of
`G·k'` is even and `k = -k'` otherwise. -/
def signatureOf {P : Type} (E : Env P) (message : HashInput) (sk : Scalar)
    (networkId : NetworkId) : Signature :=
  let pk := E.scale E.genG sk
  let kPrime := deriveNonce E message pk sk networkId
  let rx := E.xc (E.scale E.genG kPrime)
  let k := if Field.isEven (E.yc (E.scale E.genG kPrime)) then kPrime else -kPrime
  ⟨rx, k + hashMessage E message pk rx networkId * sk⟩

/-! Helper lemmas. -/

lemma maskLastByte_eq_maskByte31 (bs : List ℕ) (h : bs.length = 32) :
    maskLastByte bs = maskByte31 bs := by
  unfold maskLastByte maskByte31
  rw [h]

lemma length_bytesOfNatLE (k v : ℕ) : (bytesOfNatLE k v).length = k := by
  induction k generalizing v with
  | zero => rfl
  | succ k ih => simp [bytesOfNatLE, ih]

lemma mem_bytesOfNatLE_lt (k v b : ℕ) (h : b ∈ bytesOfNatLE k v) : b < 256 := by
  induction k generalizing v with
  | zero => simp [bytesOfNatLE] at h
  | succ k ih =>
    simp only [bytesOfNatLE, List.mem_cons] at h
    rcases h with h | h
    · omega
    · exact ih _ h

lemma natOfBytesLE_bytesOfNatLE (k v : ℕ) :
    natOfBytesLE (bytesOfNatLE k v) = v % 256 ^ k := by
  induction k generalizing v with
  | zero => simp [bytesOfNatLE, natOfBytesLE, Nat.mod_one]
  | succ k ih =>
    have hmul : (256 : ℕ) ^ (k + 1) = 256 * 256 ^ k := by ring
    rw [bytesOfNatLE, natOfBytesLE, ih, hmul, Nat.mod_mul]

lemma field_isEven_neg_of_odd (y : Field) (h : Field.isEven y = false) :
    Field.isEven (-y) = true := by
  unfold Field.isEven at *
  rw [beq_eq_false_iff_ne] at h
  have h1 : y.val % 2 = 1 := by rcases Nat.mod_two_eq_zero_or_one y.val with h0 | h0 <;> omega
  have hy0 : y ≠ 0 := by
    intro h0
    rw [h0, ZMod.val_zero] at h1
    omega
  rw [ZMod.neg_val, if_neg hy0]
  have hlt := ZMod.val_lt y
  have hp : pPallas % 2 = 1 := by decide
  rw [beq_iff_eq]
  omega

lemma field_equal_self (x : Field) : Field.equal x x = true := by
  simp [Field.equal]

lemma fieldToScalar_val (x : Field) : (fieldToScalar x).val = x.val := by
  unfold fieldToScalar
  have h1 := ZMod.val_lt x
  have h2 : pPallas < qPallas := by decide
  exact ZMod.val_cast_of_lt (by omega)

/-!
A concrete instantiation of the environment, used to witness the theorems:
the cyclic group of order `qPallas` (written additively on `ZMod qPallas`),
with the generator `1`, coordinate functions chosen so that negation fixes
the x-coordinate and negates the y-coordinate, a constant 32-byte hash, the
identity packing, the constant-zero field hash, and a byte-per-character
base58 stand-in.
-/

/-- An x-coordinate for the cyclic witness group, invariant under negation. -/
def toyXc (Q : Scalar) : Field :=
  ((min Q.val (-Q).val : ℕ) : Field)

/-- A y-coordinate for the cyclic witness group, negated (as a base field
element) by point negation. -/
def toyYc (Q : Scalar) : Field :=
  if Q.val ≤ qPallas / 2 then ((Q.val : ℕ) : Field) else -((qPallas - Q.val : ℕ) : Field)

/-- The witness environment over the cyclic group of order `qPallas`. -/
def toyEnv : Env Scalar where
  inf := 0
  genG := 1
  add := fun A B => A + B
  sub := fun A B => A - B
  neg := fun A => -A
  scale := fun g s => s * g
  xc := toyXc
  yc := toyYc
  fromProjective := fun Q => if Q = 0 then none else some (toyXc Q, toyYc Q)
  blake2b := fun _ => 1 :: List.replicate 31 0
  packToFields := fun i => i.fields
  poseidonHash := fun _ _ => 0
  signatureMainnet := mainnetTag
  signatureTestnet := testnetTag
  toBase58Check := fun bs => String.mk (bs.map Char.ofNat)
  fromBase58Check := fun s => Except.ok (s.data.map Char.toNat)
  versionNumberSig := 1

lemma char_toNat_ofNat (n : ℕ) (h : n < 256) : (Char.ofNat n).toNat = n := by
  have hv : n.isValidChar := Or.inl (by omega)
  simp only [Char.ofNat, hv, dif_pos]
  rfl

lemma toyYc_neg (Q : Scalar) : toyYc (-Q) = - toyYc Q := by
  by_cases hQ : Q = 0
  · subst hQ
    simp [toyYc]
  · have hv1 : Q.val ≠ 0 := by rwa [Ne, ZMod.val_eq_zero]
    have hvlt : Q.val < qPallas := ZMod.val_lt Q
    have hneg : (-Q).val = qPallas - Q.val := by rw [ZMod.neg_val, if_neg hQ]
    have hq2 : qPallas % 2 = 1 := by decide
    unfold toyYc
    rw [hneg]
    by_cases hle : Q.val ≤ qPallas / 2
    · have h1 : ¬ (qPallas - Q.val ≤ qPallas / 2) := by omega
      rw [if_neg h1, if_pos hle]
      have h2 : qPallas - (qPallas - Q.val) = Q.val := by omega
      rw [h2]
    · have h1 : qPallas - Q.val ≤ qPallas / 2 := by omega
      rw [if_pos h1, if_neg hle, neg_neg]

lemma toyXc_neg (Q : Scalar) : toyXc (-Q) = toyXc Q := by
  unfold toyXc
  rw [neg_neg, Nat.min_comm]

/-- The witness environment satisfies the collaborator contract. -/
lemma toySpec : EnvSpec toyEnv where
  scale_add := by
    intro a b
    show (a + b) * 1 = a * 1 + b * 1
    ring
  scale_scale := by
    intro a b
    show b * (a * 1) = (a * b) * 1
    ring
  scale_neg := by
    intro a
    show (-a) * 1 = -(a * 1)
    ring
  scale_eq_inf := by
    intro a
    show a * 1 = 0 ↔ a = 0
    simp
  sub_eq := by
    intro A B
    show A - B = A + -B
    ring
  xc_neg := toyXc_neg
  yc_neg := toyYc_neg
  fromProjective_inf := by
    show (if (0 : Scalar) = 0 then none else some (toyXc 0, toyYc 0)) = none
    simp
  fromProjective_ne := by
    intro Q hQ
    show (if Q = 0 then none else some (toyXc Q, toyYc Q)) = some (toyXc Q, toyYc Q)
    rw [if_neg (show Q ≠ 0 from hQ)]
  blake_len := by
    intro bs
    show (1 :: List.replicate 31 0).length = 32
    simp
  b58_roundtrip := by
    intro bs hbs
    show Except.ok ((String.mk (bs.map Char.ofNat)).data.map Char.toNat) = Except.ok bs
    congr 1
    show (bs.map Char.ofNat).map Char.toNat = bs
    rw [List.map_map]
    induction bs with
    | nil => rfl
    | cons b bs ih =>
      have hb : b < 256 := hbs b (List.mem_cons_self b bs)
      simp only [List.map_cons, Function.comp_apply, char_toNat_ofNat b hb]
      rw [ih (fun x hx => hbs x (List.mem_cons_of_mem b hx))]
  versionNumber_lt := by decide

/-!
Core algebra: the point the verifier reconstructs is the generator scaled by
`s - e·sk`, and for a signature of the shape `sign` produces that point is
`±G·k'`, which has an affine representation with even y-coordinate and with
the signature's `r` as x-coordinate.
-/

lemma verifyCommitment_eq {P : Type} (E : Env P) (hE : EnvSpec E) (sig : Signature)
    (m : HashInput) (sk : Scalar) (n : NetworkId) :
    verifyCommitment E sig m (E.scale E.genG sk) n
      = E.scale E.genG (sig.s - hashMessage E m (E.scale E.genG sk) sig.r n * sk) := by
  unfold verifyCommitment
  rw [hE.sub_eq, hE.scale_scale, ← hE.scale_neg, ← hE.scale_add]
  congr 1
  ring

lemma commit_affine {P : Type} (E : Env P) (hE : EnvSpec E) (m : HashInput)
    (sk kP : Scalar) (n : NetworkId) (hkP : kP ≠ 0) :
    ∃ ry,
      E.fromProjective (verifyCommitment E
          ⟨E.xc (E.scale E.genG kP),
           (if Field.isEven (E.yc (E.scale E.genG kP)) then kP else -kP)
             + hashMessage E m (E.scale E.genG sk) (E.xc (E.scale E.genG kP)) n * sk⟩
          m (E.scale E.genG sk) n)
        = some (E.xc (E.scale E.genG kP), ry) ∧ Field.isEven ry = true := by
  have hcommit : verifyCommitment E
      ⟨E.xc (E.scale E.genG kP),
       (if Field.isEven (E.yc (E.scale E.genG kP)) then kP else -kP)
         + hashMessage E m (E.scale E.genG sk) (E.xc (E.scale E.genG kP)) n * sk⟩
      m (E.scale E.genG sk) n
      = E.scale E.genG (if Field.isEven (E.yc (E.scale E.genG kP)) then kP else -kP) := by
    rw [verifyCommitment_eq E hE]
    congr 1
    ring
  by_cases hpar : Field.isEven (E.yc (E.scale E.genG kP)) = true
  · refine ⟨E.yc (E.scale E.genG kP), ?_, hpar⟩
    rw [hcommit, if_pos hpar]
    have hne : E.scale E.genG kP ≠ E.inf := by
      rw [Ne, hE.scale_eq_inf]
      exact hkP
    rw [hE.fromProjective_ne _ hne]
  · have hpar' : Field.isEven (E.yc (E.scale E.genG kP)) = false :=
      Bool.eq_false_iff.mpr hpar
    refine ⟨-(E.yc (E.scale E.genG kP)), ?_, field_isEven_neg_of_odd _ hpar'⟩
    rw [hcommit, if_neg hpar, hE.scale_neg]
    have hne : E.neg (E.scale E.genG kP) ≠ E.inf := by
      rw [← hE.scale_neg, Ne, hE.scale_eq_inf, neg_eq_zero]
      exact hkP
    rw [hE.fromProjective_ne _ hne, hE.xc_neg, hE.yc_neg]

/--
Claim C1: for every valid (non-zero) private key `sk`, every message `m` and
every network id `n` in {mainnet, testnet}, verifying the signature produced
by `sign(m, sk, n)` against `m`, the public key `G·sk` and the same network
id returns `true`.  (The signature produced is the `Except.ok` result;
the zero-nonce failure path produces no signature.)
-/
theorem sign_verify_roundtrip {P : Type} (E : Env P) (hE : EnvSpec E)
    (m : HashInput) (sk : Scalar) (n : NetworkId) (hsk : sk ≠ 0)
    (hn : n = mainnetTag ∨ n = testnetTag) (sig : Signature)
    (hsig : sign E m sk n = Except.ok sig) :
    verify E sig m (E.scale E.genG sk) n = true := by
  by_cases hk : deriveNonce E m (E.scale E.genG sk) sk n = 0
  · rw [sign, if_pos hk] at hsig
    exact absurd hsig (by simp)
  · rw [sign, if_neg hk] at hsig
    injection hsig with hsig
    obtain ⟨ry, hsome, heven⟩ := commit_affine E hE m sk _ n hk
    rw [← hsig, verify, hsome]
    simp [heven, field_equal_self]

/-- Witness for C1 at the concrete environment: the private key `1`, the
empty message and the testnet id; `sign` produces `(1, -1)` and `verify`
accepts it. -/
theorem sign_verify_roundtrip_witness :
    verify toyEnv ⟨(1 : Field), (-1 : Scalar)⟩ ⟨[], []⟩
      (toyEnv.scale toyEnv.genG 1) testnetTag = true :=
  sign_verify_roundtrip toyEnv toySpec ⟨[], []⟩ 1 testnetTag (by decide)
    (Or.inr rfl) ⟨(1 : Field), (-1 : Scalar)⟩ (by decide)

/--
Claim C2: `verify` never raises: it is a total boolean function (the
`try`/`catch` of the source is embedded as the `Option` match), and on the
internal failure path — the reconstructed point `R = s·G − e·pk` being the
point at infinity, which has no affine representative — it returns `false`.
-/
theorem verify_infinity_false {P : Type} (E : Env P) (hE : EnvSpec E)
    (sig : Signature) (m : HashInput) (pk : P) (n : NetworkId)
    (h : verifyCommitment E sig m pk n = E.inf) :
    verify E sig m pk n = false := by
  rw [verify, h, hE.fromProjective_inf]

/-- Witness for C2: in the concrete environment the signature `(1, 0)` makes
the reconstructed point the point at infinity, and `verify` returns `false`. -/
theorem verify_infinity_false_witness :
    verify toyEnv ⟨(1 : Field), (0 : Scalar)⟩ ⟨[], []⟩
      (toyEnv.scale toyEnv.genG 1) testnetTag = false :=
  verify_infinity_false toyEnv toySpec ⟨(1 : Field), (0 : Scalar)⟩ ⟨[], []⟩
    (toyEnv.scale toyEnv.genG 1) testnetTag (by decide)

/--
Claim C3: `verify` returns `true` if and only if the reconstructed point
`R = s·G − e·pk` has an affine representation `(rx, ry)` with `ry` even and
`rx` equal to the signature's `r`; both conditions are required, so a
matching x-coordinate with odd y is rejected.
-/
theorem verify_accept_iff {P : Type} (E : Env P) (sig : Signature)
    (m : HashInput) (pk : P) (n : NetworkId) :
    verify E sig m pk n = true ↔
      ∃ rx ry, E.fromProjective (verifyCommitment E sig m pk n) = some (rx, ry)
        ∧ Field.isEven ry = true ∧ rx = sig.r := by
  rw [verify]
  cases h : E.fromProjective (verifyCommitment E sig m pk n) with
  | none => simp
  | some pair =>
    obtain ⟨a, b⟩ := pair
    simp only [Field.equal, Bool.and_eq_true, beq_iff_eq, Option.some.injEq, Prod.mk.injEq]
    constructor
    · rintro ⟨h1, h2⟩
      exact ⟨a, b, ⟨rfl, rfl⟩, h1, h2⟩
    · rintro ⟨rx, ry, ⟨rfl, rfl⟩, h1, h2⟩
      exact ⟨h1, h2⟩

/--
Claim C4: every signature produced by `sign` has the canonical shape: `r` is
the x-coordinate of `G·k'`, `s = k + e·sk` where `k = k'` if the y-coordinate
of `G·k'` is even and `k = -k'` otherwise; consequently the commitment point
the verifier reconstructs from the signature has an even y-coordinate.
-/
theorem sign_canonical_y {P : Type} (E : Env P) (hE : EnvSpec E)
    (m : HashInput) (sk : Scalar) (n : NetworkId) (sig : Signature)
    (hsig : sign E m sk n = Except.ok sig) :
    sig = signatureOf E m sk n ∧
    ∃ ry, E.fromProjective (verifyCommitment E sig m (E.scale E.genG sk) n)
      = some (sig.r, ry) ∧ Field.isEven ry = true := by
  by_cases hk : deriveNonce E m (E.scale E.genG sk) sk n = 0
  · rw [sign, if_pos hk] at hsig
    exact absurd hsig (by simp)
  · rw [sign, if_neg hk] at hsig
    injection hsig with hsig
    constructor
    · rw [← hsig]
      rfl
    · obtain ⟨ry, hsome, heven⟩ := commit_affine E hE m sk _ n hk
      refine ⟨ry, ?_, heven⟩
      rw [← hsig]
      exact hsome

/-- Witness for C4 at the concrete environment: the produced signature
`(1, -1)` has the canonical shape and its reconstructed commitment has an
even y-coordinate. -/
theorem sign_canonical_y_witness :
    (⟨(1 : Field), (-1 : Scalar)⟩ : Signature) = signatureOf toyEnv ⟨[], []⟩ 1 testnetTag ∧
    ∃ ry, toyEnv.fromProjective (verifyCommitment toyEnv ⟨(1 : Field), (-1 : Scalar)⟩
        ⟨[], []⟩ (toyEnv.scale toyEnv.genG 1) testnetTag)
      = some ((1 : Field), ry) ∧ Field.isEven ry = true :=
  sign_canonical_y toyEnv toySpec ⟨[], []⟩ 1 testnetTag ⟨(1 : Field), (-1 : Scalar)⟩
    (by decide)

/--
Claim C6: `sign` fails exactly when the derived nonce is zero — this is the
only fatal condition in the signing path — and the failure is the
distinguished error value carrying the zero-nonce message (the thrown error
of the source, embedded as an `Except.error` result).
-/
theorem sign_error_iff_nonce_zero {P : Type} (E : Env P) (m : HashInput)
    (sk : Scalar) (n : NetworkId) :
    ((∃ msg, sign E m sk n = Except.error msg)
        ↔ deriveNonce E m (E.scale E.genG sk) sk n = 0)
    ∧ (∀ msg, sign E m sk n = Except.error msg → msg = signNonceZeroMsg) := by
  by_cases hk : deriveNonce E m (E.scale E.genG sk) sk n = 0
  · constructor
    · exact ⟨fun _ => hk, fun _ => ⟨signNonceZeroMsg, by rw [sign, if_pos hk]⟩⟩
    · intro msg h
      rw [sign, if_pos hk] at h
      injection h with h
      exact h.symm
  · constructor
    · constructor
      · rintro ⟨msg, h⟩
        rw [sign, if_neg hk] at h
        exact absurd h (by simp)
      · intro h
        exact absurd h hk
    · intro msg h
      rw [sign, if_neg hk] at h
      exact absurd h (by simp)

/--
Claim C5: `deriveNonce` implements exactly the specified pipeline: network
code `0x01` for mainnet and `0x00` for testnet, appended fields `[x, y, d]`
and the single packed pair `(code, 8)`, packing to field elements, bit
decomposition and regrouping to bytes, the 32-byte byte hash, masking byte
index 31 with `0x3f`, and reading the bytes as an unsigned integer modulo
the scalar field order.  (The source masks the last byte; byte index 31 is
the same byte because the hash output has length 32.)
-/
theorem deriveNonce_matches_spec {P : Type} (E : Env P) (hE : EnvSpec E)
    (m : HashInput) (pk : P) (sk : Scalar) (n : NetworkId) :
    deriveNonce E m pk sk n = deriveNonceSpec E m pk sk n := by
  simp only [deriveNonce, deriveNonceSpec]
  rw [maskLastByte_eq_maskByte31 _ (hE.blake_len _)]
  rfl

/-- Witness for C5 at the concrete environment. -/
theorem deriveNonce_matches_spec_witness :
    deriveNonce toyEnv ⟨[], []⟩ toyEnv.genG 1 testnetTag
      = deriveNonceSpec toyEnv ⟨[], []⟩ toyEnv.genG 1 testnetTag :=
  deriveNonce_matches_spec toyEnv toySpec ⟨[], []⟩ toyEnv.genG 1 testnetTag

/--
Claim C7: `hashMessage` appends the field list `[x, y, r]`, packs, applies
the domain-separated hash with the mainnet prefix exactly when the network
id is mainnet and the testnet prefix otherwise, and reinterprets the base
field output as a scalar with its numeric value unchanged — a relabeling
that never reduces, because the scalar field order exceeds the base field
order.
-/
theorem hashMessage_matches_spec {P : Type} (E : Env P) (m : HashInput)
    (pk : P) (r : Field) (n : NetworkId) :
    hashMessage E m pk r n = hashMessageSpec E m pk r n
    ∧ ∀ x : Field, (fieldToScalar x).val = x.val :=
  ⟨rfl, fieldToScalar_val⟩

/-! The base58 codec claim. -/

lemma fromBase58_of_ok {P : Type} (E : Env P) (str : String) (bytes : List ℕ)
    (h : E.fromBase58Check str = Except.ok bytes) :
    Signature.fromBase58 E str = sigOfBytes E bytes := by
  unfold Signature.fromBase58
  rw [h]

lemma sigToBytes_lt {P : Type} (E : Env P) (hv : E.versionNumberSig < 256)
    (sig : Signature) : ∀ b ∈ sigToBytes E sig, b < 256 := by
  intro b hb
  unfold sigToBytes at hb
  rcases List.mem_cons.mp hb with h | h
  · omega
  · rcases List.mem_append.mp h with h | h
    · exact mem_bytesOfNatLE_lt _ _ _ h
    · exact mem_bytesOfNatLE_lt _ _ _ h

lemma sigOfBytes_sigToBytes {P : Type} (E : Env P) (sig : Signature) :
    sigOfBytes E (sigToBytes E sig) = Except.ok sig := by
  unfold sigToBytes
  simp only [sigOfBytes]
  rw [if_pos trivial]
  have hlen : (bytesOfNatLE 32 sig.r.val ++ bytesOfNatLE 32 sig.s.val).length = 64 := by
    simp [List.length_append, length_bytesOfNatLE]
  rw [if_pos hlen, List.take_left' (length_bytesOfNatLE 32 sig.r.val),
    List.drop_left' (length_bytesOfNatLE 32 sig.r.val),
    natOfBytesLE_bytesOfNatLE, natOfBytesLE_bytesOfNatLE]
  have hp : pPallas < 256 ^ 32 := by decide
  have hq : qPallas < 256 ^ 32 := by decide
  have hr : sig.r.val % 256 ^ 32 = sig.r.val :=
    Nat.mod_eq_of_lt (lt_trans (ZMod.val_lt _) hp)
  have hs : sig.s.val % 256 ^ 32 = sig.s.val :=
    Nat.mod_eq_of_lt (lt_trans (ZMod.val_lt _) hq)
  rw [hr, hs, ZMod.natCast_rightInverse sig.r, ZMod.natCast_rightInverse sig.s]

/--
Claim C8: the base58 signature codec round-trips exactly
(`fromBase58 (toBase58 sig) = ok sig`), and on malformed input it fails with
a decoding error, never silently producing a default signature: an error of
the base58-check layer (bad checksum or wrong base58 version byte) is
propagated unchanged, a payload of the wrong length is rejected, and a wrong
version number byte is rejected.
-/
theorem signature_base58_roundtrip {P : Type} (E : Env P) (hE : EnvSpec E) :
    (∀ sig : Signature,
        Signature.fromBase58 E (Signature.toBase58 E sig) = Except.ok sig)
    ∧ (∀ str msg, E.fromBase58Check str = Except.error msg →
        Signature.fromBase58 E str = Except.error msg)
    ∧ (∀ str bytes, E.fromBase58Check str = Except.ok bytes → bytes.length ≠ 65 →
        ∃ msg, Signature.fromBase58 E str = Except.error msg)
    ∧ (∀ str v rest, E.fromBase58Check str = Except.ok (v :: rest) →
        v ≠ E.versionNumberSig →
        ∃ msg, Signature.fromBase58 E str = Except.error msg) := by
  refine ⟨?_, ?_, ?_, ?_⟩
  · intro sig
    unfold Signature.toBase58
    rw [fromBase58_of_ok E _ _ (hE.b58_roundtrip _ (sigToBytes_lt E hE.versionNumber_lt sig))]
    exact sigOfBytes_sigToBytes E sig
  · intro str msg h
    unfold Signature.fromBase58
    rw [h]
  · intro str bytes h hlen
    rw [fromBase58_of_ok E _ _ h]
    cases bytes with
    | nil => exact ⟨sigLengthMsg, rfl⟩
    | cons v rest =>
      have hr : rest.length ≠ 64 := by
        simp only [List.length_cons] at hlen
        omega
      by_cases hv : v = E.versionNumberSig
      · refine ⟨sigLengthMsg, ?_⟩
        simp only [sigOfBytes]
        rw [if_pos hv, if_neg hr]
      · refine ⟨sigVersionMsg, ?_⟩
        simp only [sigOfBytes]
        rw [if_neg hv]
  · intro str v rest h hv
    rw [fromBase58_of_ok E _ _ h]
    refine ⟨sigVersionMsg, ?_⟩
    simp only [sigOfBytes]
    rw [if_neg hv]

/-- Witness for C8 at the concrete environment: the signature `(1, 2)`
round-trips through the codec. -/
theorem signature_base58_roundtrip_witness :
    Signature.fromBase58 toyEnv (Signature.toBase58 toyEnv ⟨(1 : Field), (2 : Scalar)⟩)
      = Except.ok ⟨(1 : Field), (2 : Scalar)⟩ :=
  (signature_base58_roundtrip toyEnv toySpec).1 ⟨(1 : Field), (2 : Scalar)⟩

/--
Claim C9: `sign` is deterministic: two invocations on equal messages, equal
private keys and equal network ids yield equal signatures; the embedding is
a pure function of exactly these inputs, with no randomness or hidden state.
-/
theorem sign_deterministic {P : Type} (E : Env P) (m1 m2 : HashInput)
    (sk1 sk2 : Scalar) (n1 n2 : NetworkId)
    (hm : m1 = m2) (hsk : sk1 = sk2) (hn : n1 = n2) :
    sign E m1 sk1 n1 = sign E m2 sk2 n2 := by
  subst hm hsk hn
  rfl

/-- Witness for C9 at the concrete environment. -/
theorem sign_deterministic_witness :
    sign toyEnv ⟨[], []⟩ 1 testnetTag = sign toyEnv ⟨[], []⟩ 1 testnetTag :=
  sign_deterministic toyEnv ⟨[], []⟩ ⟨[], []⟩ 1 1 testnetTag testnetTag rfl rfl rfl

/-- A network id string outside the mainnet/testnet enumeration. -/
def devnetTag : NetworkId := "devnet"

/--
Claim C10: for every network id that is not exactly the mainnet string, both
`deriveNonce` and `hashMessage` behave identically to the testnet case: the
network code is `0x00`, the domain prefix is the testnet prefix, and there
is no rejection of unrecognized network ids.
-/
theorem non_mainnet_behaves_as_testnet {P : Type} (E : Env P) (m : HashInput)
    (pk : P) (sk : Scalar) (r : Field) (n : NetworkId) (hn : n ≠ mainnetTag) :
    networkCode n = networkIdTestnet
    ∧ signatureDomain E n = E.signatureTestnet
    ∧ deriveNonce E m pk sk n = deriveNonce E m pk sk testnetTag
    ∧ hashMessage E m pk r n = hashMessage E m pk r testnetTag := by
  have ht : testnetTag ≠ mainnetTag := by decide
  refine ⟨if_neg hn, if_neg hn, ?_, ?_⟩
  · simp only [deriveNonce, networkCode, if_neg hn, if_neg ht]
  · simp only [hashMessage, signatureDomain, if_neg hn, if_neg ht]

/-- Witness for C10: the out-of-enumeration network id string behaves as
testnet in the concrete environment. -/
theorem non_mainnet_behaves_as_testnet_witness :
    networkCode devnetTag = networkIdTestnet
    ∧ signatureDomain toyEnv devnetTag = toyEnv.signatureTestnet
    ∧ deriveNonce toyEnv ⟨[], []⟩ toyEnv.genG 1 devnetTag
        = deriveNonce toyEnv ⟨[], []⟩ toyEnv.genG 1 testnetTag
    ∧ hashMessage toyEnv ⟨[], []⟩ toyEnv.genG 1 devnetTag
        = hashMessage toyEnv ⟨[], []⟩ toyEnv.genG 1 testnetTag :=
  non_mainnet_behaves_as_testnet toyEnv ⟨[], []⟩ toyEnv.genG 1 1 devnetTag (by decide)

end MinaSignature
